import Mathlib

/-!
Shallow embedding of the Mython interpreter's lexer (lexer.cpp, the
singleton-state DFA implementation) and of its runtime comparison and
method-dispatch layer (runtime.cpp), together with theorems settling the
specification claims about them.

Conventions:
* bytes are modelled as `Char` (the inputs of interest are ASCII);
* the logical end-of-stream marker (`std::char_traits<char>::eof()`) is not a
  `Char` fed to the per-character transition, but a separate `feedEofStep`
  function, mirroring the per-state `eof` branches of the C++ code;
* C++ exceptions (`LexerError`, `std::runtime_error`) are modelled by
  `Except String`.
-/

namespace parse

/-- Token model of lexer.h (`token_type` variants folded into one sum).
Keyword tags that collide with Lean keywords carry a `kw` marker. -/
inductive Tok where
  | number (value : Int)
  | id (value : String)
  | char (value : Char)
  | str (value : String)
  | kwClass
  | kwReturn
  | kwIf
  | kwElse
  | kwDef
  | newline
  | kwPrint
  | indent
  | dedent
  | kwAnd
  | kwOr
  | kwNot
  | eq
  | notEq
  | lessOrEq
  | greaterOrEq
  | kwNone
  | kwTrue
  | kwFalse
  | eof
  deriving Repr, DecidableEq

/-- Names of the singleton lexer states of lexer.cpp. -/
inductive StName where
  | newLine
  | mayBeId
  | mayBeCompare
  | numberState
  | sqString
  | sqEscape
  | dqString
  | dqEscape
  | trailingComment
  | lineComment
  | outState
  | eofState
  deriving Repr, DecidableEq

/-- The observable lexer state: the queue of emitted tokens (`tokens_buffer_`),
the accumulation buffer (`value_`), the two static indentation counters of
`State`, and the current DFA state. -/
structure LexState where
  tokens : List Tok
  value : List Char
  next_indent_ws : Nat
  current_indent_ws : Nat
  state : StName
  deriving Repr, DecidableEq

/-- Model of `INDENT_SIZE_WS` of lexer.h. -/
def INDENT_SIZE_WS : Nat := 2

/-- Model of `State::ProcessIndentation` (lexer.cpp lines 90-103): checks that the
pending leading-space count is a multiple of the indent width, emits the
indent or dedent run, commits the new current level and zeroes the pending
count.  Natural subtraction makes exactly one of the two `PutIndentDedent`
calls emit a nonempty run, as in the source's two guarded branches. -/
def ProcessIndentation (s : LexState) : Except String LexState :=
  if s.next_indent_ws % INDENT_SIZE_WS ≠ 0 then
    .error "Invalid Indentation"
  else
    .ok { s with
      tokens := s.tokens
        ++ List.replicate ((s.next_indent_ws - s.current_indent_ws) / INDENT_SIZE_WS) Tok.indent
        ++ List.replicate ((s.current_indent_ws - s.next_indent_ws) / INDENT_SIZE_WS) Tok.dedent,
      current_indent_ws := s.next_indent_ws,
      next_indent_ws := 0 }

/-- Character class `c == '_' || std::isalpha(c)` (ASCII letters). -/
def isIdentStart (c : Char) : Bool := c == '_' || c.isAlpha

/-- Character class `c == '=' || c == '<' || c == '>' || c == '!'`. -/
def isCompareChar (c : Char) : Bool := c == '=' || c == '<' || c == '>' || c == '!'

/-- Model of `MayBeId::PushKeyWordOrId` (lexer.cpp): the accumulated word compared
against the keyword set, otherwise an `Id` token. -/
def PushKeyWordOrId (value : List Char) : Tok :=
  let word := String.mk value
  if word = "and" then Tok.kwAnd
  else if word = "class" then Tok.kwClass
  else if word = "def" then Tok.kwDef
  else if word = "else" then Tok.kwElse
  else if word = "False" then Tok.kwFalse
  else if word = "if" then Tok.kwIf
  else if word = "None" then Tok.kwNone
  else if word = "not" then Tok.kwNot
  else if word = "or" then Tok.kwOr
  else if word = "print" then Tok.kwPrint
  else if word = "return" then Tok.kwReturn
  else if word = "True" then Tok.kwTrue
  else Tok.id word

/-- Model of `Number::PushNumberToken`: `std::from_chars` over the all-digit buffer.
Out-of-range values are left unspecified by the source (`int num;` is then
never written); no claim touches that case, `0` stands in for it. -/
def parseNumber (value : List Char) : Int :=
  Int.ofNat ((String.mk value).toNat?.getD 0)

/-- Model of `NewLine::FeedChar` for a real byte (the eof branch lives in
`feedEofStep`). -/
def feedNewLine (s : LexState) (c : Char) : Except String LexState :=
  if c = '\n' then .ok { s with next_indent_ws := 0 }
  else if c = ' ' then .ok { s with next_indent_ws := s.next_indent_ws + 1 }
  else if c = '#' then .ok { s with state := .lineComment }
  else do
    let s ← ProcessIndentation s
    if isIdentStart c then .ok { s with value := [c], state := .mayBeId }
    else if c.isDigit then .ok { s with value := [c], state := .numberState }
    else if isCompareChar c then .ok { s with value := [c], state := .mayBeCompare }
    else if c = '\'' then .ok { s with value := [], state := .sqString }
    else if c = '"' then .ok { s with value := [], state := .dqString }
    else .ok { s with tokens := s.tokens ++ [Tok.char c], state := .outState }

/-- Model of `MayBeId::FeedChar` for a real byte.  After the pending word is pushed the
buffer is dead until the next `BeginNewValue`/`ClearValue`; we reset it, as
`MoveValue` does in the `Id` branch. -/
def feedMayBeId (s : LexState) (c : Char) : Except String LexState :=
  if isIdentStart c || c.isDigit then .ok { s with value := s.value ++ [c] }
  else
    let s := { s with tokens := s.tokens ++ [PushKeyWordOrId s.value], value := [] }
    if c = '\n' then .ok { s with tokens := s.tokens ++ [Tok.newline], state := .newLine }
    else if c = ' ' then .ok { s with state := .outState }
    else if c = '#' then .ok { s with state := .trailingComment }
    else if isCompareChar c then .ok { s with value := [c], state := .mayBeCompare }
    else if c = '\'' then .ok { s with value := [], state := .sqString }
    else if c = '"' then .ok { s with value := [], state := .dqString }
    else .ok { s with tokens := s.tokens ++ [Tok.char c], state := .outState }

/-- The single compare token chosen by `MayBeCompare::FeedChar` when the next
byte is `'='`; the first byte was saved as `value_[0]`. -/
def compareTok (prev : Char) : Tok :=
  if prev = '=' then Tok.eq
  else if prev = '!' then Tok.notEq
  else if prev = '<' then Tok.lessOrEq
  else Tok.greaterOrEq

/-- Model of `MayBeCompare::FeedChar` for a real byte (lexer.cpp lines 269-330).  The
saved first byte is `value_[0]`; entry to this state always stores exactly one
byte there, `headD ' '` stands for the out-of-bounds read otherwise. -/
def feedMayBeCompare (s : LexState) (c : Char) : Except String LexState :=
  let prev := s.value.headD ' '
  if c = '=' then
    .ok { s with tokens := s.tokens ++ [compareTok prev], state := .outState }
  else
    let s := { s with tokens := s.tokens ++ [Tok.char prev] }
    if c = '\n' then .ok { s with tokens := s.tokens ++ [Tok.newline], state := .newLine }
    else if c = ' ' then .ok { s with state := .outState }
    else if c = '#' then .ok { s with state := .trailingComment }
    else if isIdentStart c then .ok { s with value := [c], state := .mayBeId }
    else if c.isDigit then .ok { s with value := [c], state := .numberState }
    else if c = '\'' then .ok { s with value := [], state := .sqString }
    else if c = '"' then .ok { s with value := [], state := .dqString }
    else .ok { s with tokens := s.tokens ++ [Tok.char c], state := .outState }

/-- Model of `Number::FeedChar` for a real byte. -/
def feedNumberState (s : LexState) (c : Char) : Except String LexState :=
  if c.isDigit then .ok { s with value := s.value ++ [c] }
  else
    let s := { s with tokens := s.tokens ++ [Tok.number (parseNumber s.value)], value := [] }
    if c = '\n' then .ok { s with tokens := s.tokens ++ [Tok.newline], state := .newLine }
    else if c = ' ' then .ok { s with state := .outState }
    else if c = '#' then .ok { s with state := .trailingComment }
    else if isIdentStart c then .ok { s with value := [c], state := .mayBeId }
    else if isCompareChar c then .ok { s with value := [c], state := .mayBeCompare }
    else if c = '\'' then .ok { s with value := [], state := .sqString }
    else if c = '"' then .ok { s with value := [], state := .dqString }
    else .ok { s with tokens := s.tokens ++ [Tok.char c], state := .outState }

/-- The escape translation shared by `SingleQuotationMarkEscape::FeedChar` and
`DoubleQuotationMarkEscape::FeedChar`: `n` and `t` become the newline and tab
bytes, every other byte is kept verbatim. -/
def escapeChar (c : Char) : Char :=
  if c = 'n' then '\n' else if c = 't' then '\t' else c

/-- Model of `SingleQuotationMark::FeedChar` for a real byte: newline inside the
literal raises `LexerError("Ivalid lexeme")` (sic). -/
def feedSQString (s : LexState) (c : Char) : Except String LexState :=
  if c = '\n' then .error "Ivalid lexeme"
  else if c = '\'' then
    .ok { s with tokens := s.tokens ++ [Tok.str (String.mk s.value)], value := [],
                 state := .outState }
  else if c = '\\' then .ok { s with state := .sqEscape }
  else .ok { s with value := s.value ++ [c] }

/-- Model of `SingleQuotationMarkEscape::FeedChar` (lexer.cpp lines 446-456). -/
def feedSQEscape (s : LexState) (c : Char) : Except String LexState :=
  .ok { s with value := s.value ++ [escapeChar c], state := .sqString }

/-- Model of `DoubleQuotationMark::FeedChar` for a real byte. -/
def feedDQString (s : LexState) (c : Char) : Except String LexState :=
  if c = '\n' then .error "Ivalid lexeme"
  else if c = '"' then
    .ok { s with tokens := s.tokens ++ [Tok.str (String.mk s.value)], value := [],
                 state := .outState }
  else if c = '\\' then .ok { s with state := .dqEscape }
  else .ok { s with value := s.value ++ [c] }

/-- Model of `DoubleQuotationMarkEscape::FeedChar`. -/
def feedDQEscape (s : LexState) (c : Char) : Except String LexState :=
  .ok { s with value := s.value ++ [escapeChar c], state := .dqString }

/-- Model of `TrailingComment::FeedChar` for a real byte. -/
def feedTrailingComment (s : LexState) (c : Char) : Except String LexState :=
  if c = '\n' then .ok { s with tokens := s.tokens ++ [Tok.newline], state := .newLine }
  else .ok s

/-- Model of `LineComment::FeedChar` for a real byte.  Note: on `'\n'` the pending
leading-space count is not reset. -/
def feedLineComment (s : LexState) (c : Char) : Except String LexState :=
  if c = '\n' then .ok { s with state := .newLine }
  else .ok s

/-- Model of `OutState::FeedChar` for a real byte. -/
def feedOutState (s : LexState) (c : Char) : Except String LexState :=
  if c = '\n' then .ok { s with tokens := s.tokens ++ [Tok.newline], state := .newLine }
  else if c = ' ' then .ok s
  else if c = '#' then .ok { s with state := .trailingComment }
  else if isIdentStart c then .ok { s with value := [c], state := .mayBeId }
  else if c.isDigit then .ok { s with value := [c], state := .numberState }
  else if isCompareChar c then .ok { s with value := [c], state := .mayBeCompare }
  else if c = '\'' then .ok { s with value := [], state := .sqString }
  else if c = '"' then .ok { s with value := [], state := .dqString }
  else .ok { s with tokens := s.tokens ++ [Tok.char c] }

/-- Model of `EofState::FeedChar`: every further feed pushes another `Eof`. -/
def feedEofState (s : LexState) : Except String LexState :=
  .ok { s with tokens := s.tokens ++ [Tok.eof] }

/-- One step of the DFA on a real input byte: virtual dispatch over the
current singleton state. -/
def FeedChar (s : LexState) (c : Char) : Except String LexState :=
  match s.state with
  | .newLine => feedNewLine s c
  | .mayBeId => feedMayBeId s c
  | .mayBeCompare => feedMayBeCompare s c
  | .numberState => feedNumberState s c
  | .sqString => feedSQString s c
  | .sqEscape => feedSQEscape s c
  | .dqString => feedDQString s c
  | .dqEscape => feedDQEscape s c
  | .trailingComment => feedTrailingComment s c
  | .lineComment => feedLineComment s c
  | .outState => feedOutState s c
  | .eofState => feedEofState s

/-- The end-of-stream byte as stored by `PushChar` when the escape states
receive it: `std::char_traits<char>::eof()` reinterpreted as an unsigned
byte.  It never reaches any token (the following feed raises a
`LexerError`). -/
def eofByte : Char := Char.ofNat 255

/-- Feeding the logical end-of-stream marker: the per-state `eof` branches of
lexer.cpp.  The returned `Bool` is the C++ `FeedChar` continue flag; the
escape states are the only ones that keep feeding (they return to the string
state, whose next feed then fails). -/
def feedEofStep (s : LexState) : Except String (LexState × Bool) :=
  match s.state with
  | .newLine => do
      let s ← ProcessIndentation { s with next_indent_ws := 0 }
      .ok ({ s with tokens := s.tokens ++ [Tok.eof], state := .eofState }, false)
  | .mayBeId => do
      let s ← ProcessIndentation
        { s with tokens := s.tokens ++ [PushKeyWordOrId s.value, Tok.newline], value := [] }
      .ok ({ s with tokens := s.tokens ++ [Tok.eof], state := .eofState }, false)
  | .mayBeCompare => do
      let s ← ProcessIndentation
        { s with tokens := s.tokens ++ [Tok.char (s.value.headD ' '), Tok.newline] }
      .ok ({ s with tokens := s.tokens ++ [Tok.eof], state := .eofState }, false)
  | .numberState => do
      let s ← ProcessIndentation
        { s with tokens := s.tokens ++ [Tok.number (parseNumber s.value), Tok.newline],
                 value := [] }
      .ok ({ s with tokens := s.tokens ++ [Tok.eof], state := .eofState }, false)
  | .sqString => .error "Ivalid lexeme"
  | .sqEscape => .ok ({ s with value := s.value ++ [eofByte], state := .sqString }, true)
  | .dqString => .error "Ivalid lexeme"
  | .dqEscape => .ok ({ s with value := s.value ++ [eofByte], state := .dqString }, true)
  | .trailingComment => do
      let s ← ProcessIndentation { s with tokens := s.tokens ++ [Tok.newline] }
      .ok ({ s with tokens := s.tokens ++ [Tok.eof], state := .eofState }, false)
  | .lineComment => do
      let s ← ProcessIndentation s
      .ok ({ s with tokens := s.tokens ++ [Tok.eof], state := .eofState }, false)
  | .outState => do
      let s ← ProcessIndentation { s with tokens := s.tokens ++ [Tok.newline] }
      .ok ({ s with tokens := s.tokens ++ [Tok.eof] }, false)
  | .eofState => .ok ({ s with tokens := s.tokens ++ [Tok.eof] }, false)

/-- The state the `Lexer` constructor starts from. -/
def initState : LexState :=
  { tokens := [], value := [], next_indent_ws := 0, current_indent_ws := 0,
    state := .newLine }

/-- Feeding every input byte once, in order (`FeedQueue` pauses after a
completed token and resumes at the next byte, so the whole run is this
fold). -/
def runChars (input : List Char) : Except String LexState :=
  input.foldlM FeedChar initState

/-- The complete token stream of an input: feed every byte, then the
end-of-stream marker, once more if the state asked to continue (only the
string escape states do, and the repeat feed then fails). -/
def runLexer (input : List Char) : Except String (List Tok) := do
  let s ← runChars input
  let (s1, more) ← feedEofStep s
  if more then
    let (s2, _) ← feedEofStep s1
    .ok s2.tokens
  else
    .ok s1.tokens

end parse

namespace runtime

/-- Model of `Method` of runtime.h: name, formal parameter names, and the owned
statement tree.  Statement trees live outside runtime.cpp; the body is an
abstract statement identifier, executed through the `Context` (exactly how
runtime.cpp itself consumes it: a single `body->Execute(closure, context)`
call). -/
structure Method where
  name : String
  formal_params : List String
  body : Nat

/-- Model of `Class` of runtime.h/runtime.cpp: name, the method table and an optional
parent.  Modelled from the spec for the missing runtime.h: `methods` is a
keys-unique map `name → Method` (spec §3), here an association list whose
entries are created only by `emplace`. -/
inductive Class where
  | mk (name : String) (methods : List (String × Method)) (parent : Option Class)

/-- Own method table of a class. -/
def Class.ownMethods : Class → List (String × Method)
  | .mk _ methods _ => methods

/-- Parent link of a class. -/
def Class.parent : Class → Option Class
  | .mk _ _ parent => parent

/-- Model of `map::emplace` semantics on an association list with unique keys
(modelled from the spec: `Closure` and the method table are keys-unique
maps): insert only when the key is absent, otherwise leave the map
unchanged. -/
def emplace {α : Type} (m : List (String × α)) (k : String) (v : α) :
    List (String × α) :=
  if (m.lookup k).isSome then m else m ++ [(k, v)]

/-- Model of `Class::Class` (runtime.cpp lines 115-119): `emplace` every method of the
vector, in order, under its own name. -/
def Class.make (name : String) (methods : List Method) (parent : Option Class) :
    Class :=
  .mk name (methods.foldl (fun acc m => emplace acc m.name m) []) parent

/-- Model of `Class::GetMethod` (runtime.cpp lines 121-129): own table first, then the
parent chain, else absent. -/
def Class.GetMethod : Class → String → Option Method
  | .mk _ methods parent, name =>
    match methods.lookup name with
    | some m => some m
    | none =>
      match parent with
      | some p => p.GetMethod name
      | none => none

/-- Model of `Object` of runtime.h: the tagged value union.  `ClassInstance` carries
its class and its field closure. -/
inductive Obj where
  | number (value : Int)
  | str (value : String)
  | boolean (value : Bool)
  | cls (c : Class)
  | inst (cls : Class) (fields : List (String × Option Obj))

/-- Model of `ObjectHolder`: a possibly-null handle; `none` is Mython `None`. -/
abbrev ObjectHolder := Option Obj

/-- Model of `Closure`: identifier → holder map (modelled from the spec: keys unique,
insertion order irrelevant). -/
abbrev Closure := List (String × ObjectHolder)

/-- The runtime `Context` as runtime.cpp consumes it, together with the
denotation of statement execution: `exec body closure` is
`body->Execute(closure, context)`, which returns a holder or throws. -/
structure Context where
  exec : Nat → Closure → Except String ObjectHolder

/-- Model of `IsTrue` (runtime.cpp lines 57-74).  The match on the tag reproduces the
source's mutually exclusive `TryAs` chain; the trailing `return true` of the
source is unreachable because the variants are exhausted. -/
def IsTrue (object : ObjectHolder) : Bool :=
  match object with
  | none => false
  | some (.str s) => s != ""
  | some (.number n) => n != 0
  | some (.boolean b) => b != false
  | some (.cls _) => false
  | some (.inst _ _) => false

/-- Model of `ClassInstance::HasMethod` (runtime.cpp lines 84-87): a method of that
name exists along the chain and takes exactly `argument_count` formals. -/
def HasMethod (cls : Class) (method : String) (argument_count : Nat) : Bool :=
  match cls.GetMethod method with
  | some m => m.formal_params.length == argument_count
  | none => false

/-- The local closure built by `ClassInstance::Call`: `emplace` `self` (a
share of the receiver) first, then `emplace` each formal parameter with its
actual argument, in order. -/
def callClosure (self : ObjectHolder) (formal_params : List String)
    (actual_args : List ObjectHolder) : Closure :=
  (formal_params.zip actual_args).foldl (fun acc pa => emplace acc pa.1 pa.2)
    (emplace [] "self" self)

/-- Model of `ClassInstance::Call` (runtime.cpp lines 100-113), for the instance with
class `cls` and fields `fields`: reject a missing name or an arity mismatch,
else execute the body in the fresh closure. -/
def Call (context : Context) (cls : Class) (fields : List (String × Option Obj))
    (method_name : String) (actual_args : List ObjectHolder) :
    Except String ObjectHolder :=
  match cls.GetMethod method_name with
  | none => .error "The name of the method or the number of params is invalid."
  | some method =>
    if method.formal_params.length ≠ actual_args.length then
      .error "The name of the method or the number of params is invalid."
    else
      context.exec method.body
        (callClosure (some (.inst cls fields)) method.formal_params actual_args)

/-- The primitive-pair tail of `Equal` (runtime.cpp lines 154-163): the three
same-kind `TryAs` pairs, then the throw. -/
def primEqual (lhs rhs : ObjectHolder) : Except String Bool :=
  match lhs, rhs with
  | some (.str l), some (.str r) => .ok (l == r)
  | some (.number l), some (.number r) => .ok (l == r)
  | some (.boolean l), some (.boolean r) => .ok (l == r)
  | _, _ => .error "Cannot compare objects for equality"

/-- Model of `Equal` (runtime.cpp lines 143-164): both-null first, then delegation to
a unary `__eq__` on a left class instance (its result must be a `Bool`), then
the primitive pairs, else a runtime error. -/
def Equal (context : Context) (lhs rhs : ObjectHolder) : Except String Bool :=
  if lhs.isNone && rhs.isNone then .ok true
  else
    match lhs with
    | some (.inst c f) =>
      if HasMethod c "__eq__" 1 then
        match Call context c f "__eq__" [rhs] with
        | .error e => .error e
        | .ok (some (.boolean b)) => .ok b
        | .ok _ => .error "Cannot compare class instances for equality"
      else primEqual lhs rhs
    | _ => primEqual lhs rhs

/-- The primitive-pair tail of `Less` (runtime.cpp lines 174-183).  C++
`bool < bool` is `false < true`, written `!l && r`. -/
def primLess (lhs rhs : ObjectHolder) : Except String Bool :=
  match lhs, rhs with
  | some (.str l), some (.str r) => .ok (decide (l < r))
  | some (.number l), some (.number r) => .ok (decide (l < r))
  | some (.boolean l), some (.boolean r) => .ok (!l && r)
  | _, _ => .error "Cannot compare objects for less"

/-- Model of `Less` (runtime.cpp lines 166-184): no null-pair case; delegation to a
unary `__lt__` on a left class instance, then the primitive pairs, else a
runtime error. -/
def Less (context : Context) (lhs rhs : ObjectHolder) : Except String Bool :=
  match lhs with
  | some (.inst c f) =>
    if HasMethod c "__lt__" 1 then
      match Call context c f "__lt__" [rhs] with
      | .error e => .error e
      | .ok (some (.boolean b)) => .ok b
      | .ok _ => .error "Cannot compare class instances for less"
    else primLess lhs rhs
  | _ => primLess lhs rhs

/-- Model of `NotEqual` (runtime.cpp lines 186-188): `!Equal`. -/
def NotEqual (context : Context) (lhs rhs : ObjectHolder) : Except String Bool := do
  let e ← Equal context lhs rhs
  .ok (!e)

/-- Model of `Greater` (runtime.cpp lines 190-192): `!(Less || Equal)` with the
short-circuit evaluation of C++ `||` (when `Less` holds, `Equal` is not
evaluated). -/
def Greater (context : Context) (lhs rhs : ObjectHolder) : Except String Bool := do
  let l ← Less context lhs rhs
  if l then .ok false
  else do
    let e ← Equal context lhs rhs
    .ok (!e)

/-- Model of `LessOrEqual` (runtime.cpp lines 194-196): `!Greater`. -/
def LessOrEqual (context : Context) (lhs rhs : ObjectHolder) : Except String Bool := do
  let g ← Greater context lhs rhs
  .ok (!g)

/-- Model of `GreaterOrEqual` (runtime.cpp lines 198-200): `!Less`. -/
def GreaterOrEqual (context : Context) (lhs rhs : ObjectHolder) : Except String Bool := do
  let l ← Less context lhs rhs
  .ok (!l)

end runtime

namespace parse

/-- The tokens each state contributes at end-of-stream before the dedent run
and the final `Eof`: the pending lexeme (if any) and the closing `Newline`
for states reached after something was emitted on the current line. -/
def pendingEofTokens (s : LexState) : List Tok :=
  match s.state with
  | .mayBeId => [PushKeyWordOrId s.value, Tok.newline]
  | .mayBeCompare => [Tok.char (s.value.headD ' '), Tok.newline]
  | .numberState => [Tok.number (parseNumber s.value), Tok.newline]
  | .outState => [Tok.newline]
  | .trailingComment => [Tok.newline]
  | _ => []

/-- Invariant of every lexer state reachable by feeding real bytes from the
initial state: the committed indent level is even and equals twice the
surplus of emitted `Indent` over `Dedent` tokens, the pending space count is
zero outside the `NewLine`/`LineComment` states, and the terminal state has
not been entered. -/
def Inv (s : LexState) : Prop :=
  s.current_indent_ws % 2 = 0 ∧
  s.tokens.count Tok.indent = s.tokens.count Tok.dedent + s.current_indent_ws / 2 ∧
  (s.state ≠ StName.newLine → s.state ≠ StName.lineComment → s.next_indent_ws = 0) ∧
  s.state ≠ StName.eofState

end parse

namespace runtime

/-- Both holders carry primitives of the same kind (`Number`, `String` or
`Bool`). -/
def samePrimKind : ObjectHolder → ObjectHolder → Bool
  | some (.str _), some (.str _) => true
  | some (.number _), some (.number _) => true
  | some (.boolean _), some (.boolean _) => true
  | _, _ => false

/-- The holder is a primitive (`Number`, `String` or `Bool`). -/
def isPrimitive : ObjectHolder → Bool
  | some (.number _) => true
  | some (.str _) => true
  | some (.boolean _) => true
  | _ => false

/-- The holder is a class instance whose class exposes the named method with
exactly one formal parameter. -/
def instHasUnaryMethod (h : ObjectHolder) (name : String) : Bool :=
  match h with
  | some (.inst c _) => HasMethod c name 1
  | _ => false

/-- The class together with its ancestors, nearest first. -/
def Class.chain : Class → List Class
  | .mk n ms none => [Class.mk n ms none]
  | .mk n ms (some p) => Class.mk n ms (some p) :: p.chain

/-- Modelled from the spec's words for method lookup: search the own tables
along the parent chain and return the first match, else absent.  To be
compared against `Class.GetMethod`. -/
def GetMethodSpec (c : Class) (name : String) : Option Method :=
  (c.chain.map (fun k => k.ownMethods.lookup name)).findSome? id

/-- A context whose statement execution always returns `None`; used to
instantiate context-generic theorems at a concrete input. -/
def trivialContext : Context := ⟨fun _ _ => .ok none⟩

end runtime

/-- C1: ProcessIndentation with pending count `new` and current level `cur`
raises a LexerError when `new` is odd, otherwise emits floor((new-cur)/2)
Indent tokens when new > cur and floor((cur-new)/2) Dedent tokens when
new < cur and commits `cur := new`. -/
theorem C1_process_indentation (s : parse.LexState) :
    (s.next_indent_ws % 2 ≠ 0 →
      parse.ProcessIndentation s = .error "Invalid Indentation") ∧
    (s.next_indent_ws % 2 = 0 →
      parse.ProcessIndentation s = .ok { s with
        tokens := s.tokens
          ++ List.replicate ((s.next_indent_ws - s.current_indent_ws) / 2) parse.Tok.indent
          ++ List.replicate ((s.current_indent_ws - s.next_indent_ws) / 2) parse.Tok.dedent,
        current_indent_ws := s.next_indent_ws,
        next_indent_ws := 0 }) := by
  constructor <;> intro h <;>
    simp [parse.ProcessIndentation, parse.INDENT_SIZE_WS, h]

/-- C1 witness: an indent of 4 spaces after level 0 emits exactly two Indent
tokens; 3 leading spaces raise the error. -/
theorem C1_witness :
    parse.ProcessIndentation ⟨[], [], 4, 0, .newLine⟩ =
      .ok ⟨[parse.Tok.indent, parse.Tok.indent], [], 0, 4, .newLine⟩ ∧
    parse.ProcessIndentation ⟨[], [], 3, 0, .newLine⟩ = .error "Invalid Indentation" := by
  constructor
  · have h := (C1_process_indentation ⟨[], [], 4, 0, .newLine⟩).2 (by decide)
    simpa using h
  · exact (C1_process_indentation ⟨[], [], 3, 0, .newLine⟩).1 (by decide)

/-- C5: IsTrue maps None to false, Bool(b) to b, Number(n) to n ≠ 0,
String(s) to s ≠ "", and every Class and ClassInstance to false. -/
theorem C5_is_true :
    runtime.IsTrue none = false ∧
    (∀ b, runtime.IsTrue (some (runtime.Obj.boolean b)) = b) ∧
    (∀ n : Int, (runtime.IsTrue (some (runtime.Obj.number n)) = true ↔ n ≠ 0)) ∧
    (∀ s : String, (runtime.IsTrue (some (runtime.Obj.str s)) = true ↔ s ≠ "")) ∧
    (∀ c, runtime.IsTrue (some (runtime.Obj.cls c)) = false) ∧
    (∀ c f, runtime.IsTrue (some (runtime.Obj.inst c f)) = false) := by
  refine ⟨rfl, ?_, ?_, ?_, fun _ => rfl, fun _ _ => rfl⟩
  · intro b; cases b <;> rfl
  · intro n; simp [runtime.IsTrue]
  · intro s; simp [runtime.IsTrue]

/-- C5 witness: the number 5 is truthy, 0 and the empty string and False and
a bare class are falsy. -/
theorem C5_witness :
    runtime.IsTrue (some (runtime.Obj.number 5)) = true ∧
    runtime.IsTrue (some (runtime.Obj.number 0)) = false ∧
    runtime.IsTrue (some (runtime.Obj.str "")) = false ∧
    runtime.IsTrue (some (runtime.Obj.boolean false)) = false := by
  refine ⟨(C5_is_true.2.2.1 5).mpr (by decide), ?_, ?_, C5_is_true.2.1 false⟩
  · have h := C5_is_true.2.2.1 0
    simp at h
    simpa using h
  · have h := C5_is_true.2.2.2.1 ""
    simp at h
    simpa using h

/-- C3: Equal is true on two None holders, value equality on same-kind
primitive pairs, delegates to a unary `__eq__` when the left operand is a
class instance exposing one (a non-Bool result is a runtime error), and is a
runtime error for every other combination; Less behaves the same with
`__lt__` and strict ordering, except that Less(None, None) is a runtime
error. -/
theorem C3_equal_less (ctx : runtime.Context) :
    (runtime.Equal ctx none none = .ok true) ∧
    (∀ n m : Int, runtime.Equal ctx (some (.number n)) (some (.number m)) = .ok (n == m)) ∧
    (∀ a b : String, runtime.Equal ctx (some (.str a)) (some (.str b)) = .ok (a == b)) ∧
    (∀ a b : Bool, runtime.Equal ctx (some (.boolean a)) (some (.boolean b)) = .ok (a == b)) ∧
    (∀ c f rhs, runtime.HasMethod c "__eq__" 1 = true →
      runtime.Equal ctx (some (.inst c f)) rhs =
        match runtime.Call ctx c f "__eq__" [rhs] with
        | .ok (some (.boolean b)) => .ok b
        | .ok _ => .error "Cannot compare class instances for equality"
        | .error e => .error e) ∧
    (∀ lhs rhs, runtime.samePrimKind lhs rhs = false →
      runtime.instHasUnaryMethod lhs "__eq__" = false →
      ¬(lhs = none ∧ rhs = none) →
      ∃ e, runtime.Equal ctx lhs rhs = .error e) ∧
    (∀ n m : Int, runtime.Less ctx (some (.number n)) (some (.number m)) = .ok (decide (n < m))) ∧
    (∀ a b : String, runtime.Less ctx (some (.str a)) (some (.str b)) = .ok (decide (a < b))) ∧
    (∀ a b : Bool, runtime.Less ctx (some (.boolean a)) (some (.boolean b)) = .ok (!a && b)) ∧
    (∀ c f rhs, runtime.HasMethod c "__lt__" 1 = true →
      runtime.Less ctx (some (.inst c f)) rhs =
        match runtime.Call ctx c f "__lt__" [rhs] with
        | .ok (some (.boolean b)) => .ok b
        | .ok _ => .error "Cannot compare class instances for less"
        | .error e => .error e) ∧
    (∀ lhs rhs, runtime.samePrimKind lhs rhs = false →
      runtime.instHasUnaryMethod lhs "__lt__" = false →
      ∃ e, runtime.Less ctx lhs rhs = .error e) ∧
    (∃ e, runtime.Less ctx (none : runtime.ObjectHolder) none = .error e) := by
  refine ⟨rfl, fun n m => rfl, fun a b => rfl, fun a b => rfl, ?_, ?_, fun n m => rfl,
    fun a b => rfl, fun a b => rfl, ?_, ?_, ⟨_, rfl⟩⟩
  · intro c f rhs h
    simp only [runtime.Equal, Option.isNone_some, Bool.false_and, Bool.and_false, if_neg,
      Bool.false_eq_true, not_false_iff, h, if_pos]
    cases hc : runtime.Call ctx c f "__eq__" [rhs] with
    | error e => rfl
    | ok r =>
      match r with
      | none => rfl
      | some (.number _) => rfl
      | some (.str _) => rfl
      | some (.boolean _) => rfl
      | some (.cls _) => rfl
      | some (.inst _ _) => rfl
  · intro lhs rhs hsame hinst hnn
    match lhs, rhs with
    | none, none => exact absurd ⟨rfl, rfl⟩ hnn
    | none, some o => exact ⟨_, rfl⟩
    | some (.number _), none => exact ⟨_, rfl⟩
    | some (.str _), none => exact ⟨_, rfl⟩
    | some (.boolean _), none => exact ⟨_, rfl⟩
    | some (.cls _), none => exact ⟨_, rfl⟩
    | some (.cls _), some _ => exact ⟨_, rfl⟩
    | some (.inst c f), rhs =>
      simp only [runtime.instHasUnaryMethod] at hinst
      simp only [runtime.Equal, runtime.primEqual, hinst]
      exact ⟨_, rfl⟩
    | some (.number _), some (.str _) => exact ⟨_, rfl⟩
    | some (.number _), some (.boolean _) => exact ⟨_, rfl⟩
    | some (.number _), some (.cls _) => exact ⟨_, rfl⟩
    | some (.number _), some (.inst _ _) => exact ⟨_, rfl⟩
    | some (.number _), some (.number _) => simp [runtime.samePrimKind] at hsame
    | some (.str _), some (.number _) => exact ⟨_, rfl⟩
    | some (.str _), some (.boolean _) => exact ⟨_, rfl⟩
    | some (.str _), some (.cls _) => exact ⟨_, rfl⟩
    | some (.str _), some (.inst _ _) => exact ⟨_, rfl⟩
    | some (.str _), some (.str _) => simp [runtime.samePrimKind] at hsame
    | some (.boolean _), some (.number _) => exact ⟨_, rfl⟩
    | some (.boolean _), some (.str _) => exact ⟨_, rfl⟩
    | some (.boolean _), some (.cls _) => exact ⟨_, rfl⟩
    | some (.boolean _), some (.inst _ _) => exact ⟨_, rfl⟩
    | some (.boolean _), some (.boolean _) => simp [runtime.samePrimKind] at hsame
  · intro c f rhs h
    simp only [runtime.Less, h, if_pos]
    cases hc : runtime.Call ctx c f "__lt__" [rhs] with
    | error e => rfl
    | ok r =>
      match r with
      | none => rfl
      | some (.number _) => rfl
      | some (.str _) => rfl
      | some (.boolean _) => rfl
      | some (.cls _) => rfl
      | some (.inst _ _) => rfl
  · intro lhs rhs hsame hinst
    match lhs, rhs with
    | none, none => exact ⟨_, rfl⟩
    | none, some o => exact ⟨_, rfl⟩
    | some (.number _), none => exact ⟨_, rfl⟩
    | some (.str _), none => exact ⟨_, rfl⟩
    | some (.boolean _), none => exact ⟨_, rfl⟩
    | some (.cls _), none => exact ⟨_, rfl⟩
    | some (.cls _), some _ => exact ⟨_, rfl⟩
    | some (.inst c f), rhs =>
      simp only [runtime.instHasUnaryMethod] at hinst
      simp only [runtime.Less, runtime.primLess, hinst]
      exact ⟨_, rfl⟩
    | some (.number _), some (.str _) => exact ⟨_, rfl⟩
    | some (.number _), some (.boolean _) => exact ⟨_, rfl⟩
    | some (.number _), some (.cls _) => exact ⟨_, rfl⟩
    | some (.number _), some (.inst _ _) => exact ⟨_, rfl⟩
    | some (.number _), some (.number _) => simp [runtime.samePrimKind] at hsame
    | some (.str _), some (.number _) => exact ⟨_, rfl⟩
    | some (.str _), some (.boolean _) => exact ⟨_, rfl⟩
    | some (.str _), some (.cls _) => exact ⟨_, rfl⟩
    | some (.str _), some (.inst _ _) => exact ⟨_, rfl⟩
    | some (.str _), some (.str _) => simp [runtime.samePrimKind] at hsame
    | some (.boolean _), some (.number _) => exact ⟨_, rfl⟩
    | some (.boolean _), some (.str _) => exact ⟨_, rfl⟩
    | some (.boolean _), some (.cls _) => exact ⟨_, rfl⟩
    | some (.boolean _), some (.inst _ _) => exact ⟨_, rfl⟩
    | some (.boolean _), some (.boolean _) => simp [runtime.samePrimKind] at hsame

/-- C3 witness at concrete inputs: 2 == 2, None == None, and Less(None, None)
and Equal(Number, String) are runtime errors. -/
theorem C3_witness :
    runtime.Equal runtime.trivialContext (some (.number 2)) (some (.number 2)) = .ok true ∧
    (∃ e, runtime.Equal runtime.trivialContext (some (.number 1)) (some (.str "a")) = .error e) ∧
    (∃ e, runtime.Less runtime.trivialContext (none : runtime.ObjectHolder) none = .error e) := by
  refine ⟨?_, ?_, (C3_equal_less runtime.trivialContext).2.2.2.2.2.2.2.2.2.2.2⟩
  · have h := (C3_equal_less runtime.trivialContext).2.1 2 2
    simpa using h
  · exact (C3_equal_less runtime.trivialContext).2.2.2.2.2.1
      (some (.number 1)) (some (.str "a")) (by decide) (by decide) (by simp)

/-- Reduction of the Except monad bind on a success value. -/
theorem exceptBind_ok {α β : Type} (a : α) (f : α → Except String β) :
    (Except.ok a >>= f) = f a := rfl

/-- Reduction of the Except monad bind on an error. -/
theorem exceptBind_error {α β : Type} (e : String) (f : α → Except String β) :
    ((Except.error e : Except String α) >>= f) = Except.error e := rfl

/-- C4: the four derived comparators equal the stated boolean combinations
whenever Equal and Less are defined, Equal is reflexive on primitives, and on
same-kind primitive pairs Equal holds iff NotEqual does not. -/
theorem C4_derived (ctx : runtime.Context) :
    (∀ x y e l, runtime.Equal ctx x y = .ok e → runtime.Less ctx x y = .ok l →
      runtime.NotEqual ctx x y = .ok (!e) ∧
      runtime.Greater ctx x y = .ok (!(l || e)) ∧
      runtime.LessOrEqual ctx x y = .ok (l || e) ∧
      runtime.GreaterOrEqual ctx x y = .ok (!l)) ∧
    (∀ x, runtime.isPrimitive x = true → runtime.Equal ctx x x = .ok true) ∧
    (∀ x y, runtime.samePrimKind x y = true →
      (runtime.Equal ctx x y = .ok true ↔ runtime.NotEqual ctx x y = .ok false)) := by
  refine ⟨?_, ?_, ?_⟩
  · intro x y e l he hl
    have hne : runtime.NotEqual ctx x y = .ok (!e) := by
      simp [runtime.NotEqual, he, exceptBind_ok]
    have hg : runtime.Greater ctx x y = .ok (!(l || e)) := by
      cases l <;> simp [runtime.Greater, he, hl, exceptBind_ok]
    refine ⟨hne, hg, ?_, ?_⟩
    · simp [runtime.LessOrEqual, hg, exceptBind_ok]
    · simp [runtime.GreaterOrEqual, hl, exceptBind_ok]
  · intro x hx
    match x with
    | some (.number n) => simp [runtime.Equal, runtime.primEqual]
    | some (.str s) => simp [runtime.Equal, runtime.primEqual]
    | some (.boolean b) => simp [runtime.Equal, runtime.primEqual]
  · intro x y hxy
    have : ∃ b, runtime.Equal ctx x y = .ok b := by
      match x, y with
      | some (.number n), some (.number m) => exact ⟨_, rfl⟩
      | some (.str a), some (.str b) => exact ⟨_, rfl⟩
      | some (.boolean a), some (.boolean b) => exact ⟨_, rfl⟩
    obtain ⟨b, hb⟩ := this
    have hne : runtime.NotEqual ctx x y = .ok (!b) := by
      simp [runtime.NotEqual, hb, exceptBind_ok]
    rw [hb, hne]
    cases b <;> simp

/-- C4 witness at concrete primitive inputs. -/
theorem C4_witness :
    runtime.NotEqual runtime.trivialContext (some (.number 3)) (some (.number 4)) = .ok true ∧
    runtime.Greater runtime.trivialContext (some (.number 3)) (some (.number 4)) = .ok false ∧
    runtime.LessOrEqual runtime.trivialContext (some (.number 3)) (some (.number 4)) = .ok true ∧
    runtime.GreaterOrEqual runtime.trivialContext (some (.number 3)) (some (.number 4)) = .ok false ∧
    runtime.Equal runtime.trivialContext (some (.str "q")) (some (.str "q")) = .ok true := by
  have h := (C4_derived runtime.trivialContext).1 (some (.number 3)) (some (.number 4))
    false true (by rfl) (by rfl)
  have hr := (C4_derived runtime.trivialContext).2.1 (some (.str "q")) (by decide)
  exact ⟨by simpa using h.1, by simpa using h.2.1, by simpa using h.2.2.1,
    by simpa using h.2.2.2, hr⟩

/-- Lookup distributes over append as first-hit search. -/
theorem lookup_append {α : Type} (l₁ l₂ : List (String × α)) (n : String) :
    List.lookup n (l₁ ++ l₂) =
      match List.lookup n l₁ with
      | some v => some v
      | none => List.lookup n l₂ := by
  induction l₁ with
  | nil => simp [List.lookup]
  | cons p t ih =>
    obtain ⟨k, v⟩ := p
    cases h : n == k <;> simp [List.lookup, h, ih]

/-- Lookup after `emplace`: an existing binding is untouched, a fresh key
becomes visible. -/
theorem lookup_emplace {α : Type} (m : List (String × α)) (k n : String) (v : α) :
    List.lookup n (runtime.emplace m k v) =
      match List.lookup n m with
      | some w => some w
      | none => if n == k then some v else none := by
  unfold runtime.emplace
  by_cases h : (List.lookup k m).isSome
  · simp only [h, if_pos]
    cases hn : List.lookup n m with
    | some w => rfl
    | none =>
      have hk : (n == k) = false := by
        by_contra hc
        have : n = k := by
          cases hkk : n == k
          · simp [hkk] at hc
          · exact eq_of_beq hkk
        rw [this] at hn
        rw [hn] at h
        simp at h
      simp [hk]
  · simp only [h, if_neg, Bool.not_eq_true]
    rw [lookup_append]
    cases hn : List.lookup n m with
    | some w => rfl
    | none =>
      cases hk : n == k with
      | true =>
        have hnk : n = k := eq_of_beq hk
        simp [List.lookup, hk, hnk]
      | false =>
        have hnk : n ≠ k := by
          intro hh
          rw [hh] at hk
          simp at hk
        simp [List.lookup, hk, hnk]

/-- Lookup in a fold of `emplace` steps: the accumulator wins, then the first
pair of the list with the key. -/
theorem lookup_foldl_emplace {α : Type} (ps : List (String × α))
    (acc : List (String × α)) (n : String) :
    List.lookup n (ps.foldl (fun a p => runtime.emplace a p.1 p.2) acc) =
      match List.lookup n acc with
      | some v => some v
      | none => List.lookup n ps := by
  induction ps generalizing acc with
  | nil =>
    cases h : List.lookup n acc <;> simp [List.lookup, h]
  | cons p t ih =>
    obtain ⟨k, v⟩ := p
    simp only [List.foldl_cons]
    rw [ih, lookup_emplace]
    cases hacc : List.lookup n acc with
    | some w => rfl
    | none => cases hk : n == k <;> simp [List.lookup, hk]

/-- Lookup in the name-keyed pairing of a method list is first-hit search. -/
theorem lookup_map_name (ms : List runtime.Method) (n : String) :
    List.lookup n (ms.map (fun m => (m.name, m))) =
      ms.find? (fun m => m.name == n) := by
  induction ms with
  | nil => simp [List.lookup]
  | cons m t ih =>
    by_cases h : n = m.name
    · subst h
      simp [List.lookup, List.find?]
    · have hb1 : (n == m.name) = false := by simp [h]
      have hb2 : (m.name == n) = false := by simp [Ne.symm h]
      simp [List.lookup, List.find?, hb1, hb2, ih]

/-- Lookup in the method table built by the `Class` constructor is first-hit
search in the construction vector. -/
theorem lookup_make (ms : List runtime.Method) (n : String) :
    List.lookup n (ms.foldl (fun acc m => runtime.emplace acc m.name m) []) =
      ms.find? (fun m => m.name == n) := by
  have h1 : ms.foldl (fun acc m => runtime.emplace acc m.name m) [] =
      (ms.map (fun m => (m.name, m))).foldl (fun a p => runtime.emplace a p.1 p.2) [] := by
    rw [List.foldl_map]
  rw [h1, lookup_foldl_emplace]
  have h2 : List.lookup n ([] : List (String × runtime.Method)) = none := rfl
  rw [h2]
  exact lookup_map_name ms n

/-- The function `GetMethod` agrees with the spec-side first-match-along-the-chain
lookup. -/
theorem getMethod_eq_spec (c : runtime.Class) (name : String) :
    runtime.Class.GetMethod c name = runtime.GetMethodSpec c name := by
  match c with
  | .mk n ms none =>
    cases h : List.lookup name ms <;>
      simp [runtime.Class.GetMethod, runtime.GetMethodSpec, runtime.Class.chain,
        runtime.Class.ownMethods, h]
  | .mk n ms (some p) =>
    have ih := getMethod_eq_spec p name
    cases h : List.lookup name ms <;>
      simp [runtime.Class.GetMethod, runtime.GetMethodSpec, runtime.Class.chain,
        runtime.Class.ownMethods, h, ih]

/-- C6: method lookup returns the own method first, else the first match
along the parent chain; a call errors unless a method of that name exists
with formal-parameter count equal to the argument count, in which case the
body is executed in the call closure. -/
theorem C6_method_lookup_and_call :
    (∀ (c : runtime.Class) (name : String),
      runtime.Class.GetMethod c name = runtime.GetMethodSpec c name) ∧
    (∀ (ctx : runtime.Context) (cls : runtime.Class) fields name
        (args : List runtime.ObjectHolder),
      runtime.HasMethod cls name args.length = false →
      runtime.Call ctx cls fields name args =
        .error "The name of the method or the number of params is invalid.") ∧
    (∀ (ctx : runtime.Context) (cls : runtime.Class) fields name args
        (m : runtime.Method),
      runtime.Class.GetMethod cls name = some m →
      m.formal_params.length = args.length →
      runtime.Call ctx cls fields name args =
        ctx.exec m.body
          (runtime.callClosure (some (.inst cls fields)) m.formal_params args)) := by
  refine ⟨getMethod_eq_spec, ?_, ?_⟩
  · intro ctx cls fields name args h
    unfold runtime.Call
    cases hg : runtime.Class.GetMethod cls name with
    | none => rfl
    | some m =>
      unfold runtime.HasMethod at h
      rw [hg] at h
      simp only [beq_eq_false_iff_ne, ne_eq] at h
      simp [h]
  · intro ctx cls fields name args m hg hlen
    unfold runtime.Call
    rw [hg]
    simp [hlen]

/-- C6 witness: a missing method errors; a present zero-argument method runs
its body. -/
theorem C6_witness :
    runtime.Call runtime.trivialContext (runtime.Class.make "A" [] none) [] "f" [] =
      .error "The name of the method or the number of params is invalid." ∧
    runtime.Call runtime.trivialContext
      (runtime.Class.make "B" [⟨"f", [], 7⟩] none) [] "f" [] = .ok none := by
  constructor
  · exact C6_method_lookup_and_call.2.1 runtime.trivialContext _ [] "f" [] (by rfl)
  · have h := C6_method_lookup_and_call.2.2 runtime.trivialContext
      (runtime.Class.make "B" [⟨"f", [], 7⟩] none) [] "f" [] ⟨"f", [], 7⟩ (by rfl) (by rfl)
    simpa [runtime.trivialContext] using h

/-- C9: when a class is constructed from a method list with duplicate names,
only the first occurrence is installed and found, later ones are silently
discarded; lookup falls through to the parent only when the list has no
method of the name. -/
theorem C9_first_method_wins (nm : String) (ms : List runtime.Method)
    (parent : Option runtime.Class) (n : String) :
    runtime.Class.GetMethod (runtime.Class.make nm ms parent) n =
      match ms.find? (fun m => m.name == n) with
      | some m => some m
      | none =>
        match parent with
        | some p => runtime.Class.GetMethod p n
        | none => none := by
  show runtime.Class.GetMethod
    (.mk nm (ms.foldl (fun acc m => runtime.emplace acc m.name m) []) parent) n = _
  rw [← lookup_make ms n]
  cases parent with
  | none =>
    cases h : List.lookup n (ms.foldl (fun acc m => runtime.emplace acc m.name m) []) <;>
      simp [runtime.Class.GetMethod, h]
  | some p =>
    cases h : List.lookup n (ms.foldl (fun acc m => runtime.emplace acc m.name m) []) <;>
      simp [runtime.Class.GetMethod, h]

/-- C9 witness: of two methods named `f`, the first (body 1) is returned. -/
theorem C9_witness :
    runtime.Class.GetMethod
      (runtime.Class.make "A" [⟨"f", [], 1⟩, ⟨"f", ["x"], 2⟩] none) "f" =
      some ⟨"f", [], 1⟩ := by
  have h := C9_first_method_wins "A" [⟨"f", [], 1⟩, ⟨"f", ["x"], 2⟩] none "f"
  simpa using h

/-- Association-list lookup in a zip finds the value at the first occurrence
of a key. -/
theorem lookup_zip_get (params : List String) (args : List runtime.ObjectHolder)
    (i : Nat) (h : i < params.length) (h2 : i < args.length)
    (hfirst : ∀ j (hj : j < i), params.get ⟨j, by omega⟩ ≠ params.get ⟨i, h⟩) :
    List.lookup (params.get ⟨i, h⟩) (params.zip args) = some (args.get ⟨i, h2⟩) := by
  induction params generalizing args i with
  | nil => simp at h
  | cons p pt ih =>
    cases args with
    | nil => simp at h2
    | cons a at2 =>
      cases i with
      | zero => simp [List.zip_cons_cons, List.lookup]
      | succ k =>
        have hk : k < pt.length := by
          simp only [List.length_cons] at h
          omega
        have hk2 : k < at2.length := by
          simp only [List.length_cons] at h2
          omega
        have hp : p ≠ (p :: pt).get ⟨k + 1, h⟩ := hfirst 0 (Nat.succ_pos k)
        simp only [List.get_cons_succ] at hp ⊢
        have hb : (pt.get ⟨k, hk⟩ == p) = false := by
          simp only [List.get_eq_getElem] at hp
          simp [Ne.symm hp]
        simp only [List.zip_cons_cons, List.lookup, hb]
        exact ih at2 k hk hk2
          (fun j hj => by
            have := hfirst (j + 1) (by omega)
            simpa using this)

/-- C10: in the closure built by `ClassInstance::Call`, `self` is always
bound to the receiver (an actual argument for a formal named `self` is
silently ignored), and of duplicate formal parameter names only the first
occurrence binds its argument. -/
theorem C10_self_binding (self : runtime.ObjectHolder) (params : List String)
    (args : List runtime.ObjectHolder) :
    (List.lookup "self" (runtime.callClosure self params args) = some self) ∧
    (∀ i (h : i < params.length) (h2 : i < args.length),
      params.get ⟨i, h⟩ ≠ "self" →
      (∀ j (hj : j < i), params.get ⟨j, by omega⟩ ≠ params.get ⟨i, h⟩) →
      List.lookup (params.get ⟨i, h⟩) (runtime.callClosure self params args) =
        some (args.get ⟨i, h2⟩)) := by
  have hbase : runtime.emplace ([] : runtime.Closure) "self" self = [("self", self)] := rfl
  constructor
  · unfold runtime.callClosure
    rw [lookup_foldl_emplace, hbase]
    simp [List.lookup]
  · intro i h h2 hself hfirst
    unfold runtime.callClosure
    rw [lookup_foldl_emplace, hbase]
    have hb : (params.get ⟨i, h⟩ == "self") = false := by
      simp only [List.get_eq_getElem] at hself
      simp [hself]
    simp only [List.lookup, hb]
    exact lookup_zip_get params args i h h2 hfirst

/-- C10 witness: with formals `[self, x]`, the argument supplied for the
formal named `self` is ignored and `self` still maps to the receiver, while
`x` gets its own argument. -/
theorem C10_witness :
    List.lookup "self" (runtime.callClosure (some (.number 9)) ["self", "x"]
      [some (.number 1), some (.number 2)]) = some (some (.number 9)) ∧
    List.lookup "x" (runtime.callClosure (some (.number 9)) ["self", "x"]
      [some (.number 1), some (.number 2)]) = some (some (.number 2)) := by
  constructor
  · exact (C10_self_binding (some (.number 9)) ["self", "x"]
      [some (.number 1), some (.number 2)]).1
  · have h := (C10_self_binding (some (.number 9)) ["self", "x"]
      [some (.number 1), some (.number 2)]).2 1 (by decide) (by decide) (by decide)
      (fun j hj => by
        have hj0 : j = 0 := by omega
        subst hj0
        exact (by decide : ("self" : String) ≠ "x"))
    simpa using h

/-- C7: after one of `= ! < >`, a following `=` fuses into the corresponding
compare token; any other byte makes the saved byte a `Char` token and the
second byte is then dispatched on its own class (identifier start, digit,
newline, space, comment, quote, end-of-stream, or other). -/
theorem C7_compare_state (s : parse.LexState) (p : Char)
    (hst : s.state = parse.StName.mayBeCompare) (hv : s.value = [p])
    (_hp : p ∈ ['=', '!', '<', '>']) (hnext : s.next_indent_ws = 0) :
    (parse.FeedChar s '=' = .ok { s with
        tokens := s.tokens ++ [if p = '=' then parse.Tok.eq
          else if p = '!' then parse.Tok.notEq
          else if p = '<' then parse.Tok.lessOrEq
          else parse.Tok.greaterOrEq],
        state := .outState }) ∧
    (∀ c, c ≠ '=' → parse.isIdentStart c = true →
      parse.FeedChar s c = .ok { s with
        tokens := s.tokens ++ [parse.Tok.char p],
        value := [c],
        state := .mayBeId }) ∧
    (∀ c, c ≠ '=' → parse.isIdentStart c = false → c.isDigit = true →
      parse.FeedChar s c = .ok { s with
        tokens := s.tokens ++ [parse.Tok.char p],
        value := [c],
        state := .numberState }) ∧
    (parse.FeedChar s '\n' = .ok { s with
        tokens := s.tokens ++ [parse.Tok.char p, parse.Tok.newline],
        state := .newLine }) ∧
    (parse.FeedChar s ' ' = .ok { s with
        tokens := s.tokens ++ [parse.Tok.char p],
        state := .outState }) ∧
    (parse.FeedChar s '#' = .ok { s with
        tokens := s.tokens ++ [parse.Tok.char p],
        state := .trailingComment }) ∧
    (parse.FeedChar s '\'' = .ok { s with
        tokens := s.tokens ++ [parse.Tok.char p],
        value := [],
        state := .sqString }) ∧
    (parse.FeedChar s '"' = .ok { s with
        tokens := s.tokens ++ [parse.Tok.char p],
        value := [],
        state := .dqString }) ∧
    (∀ c, c ≠ '=' → c ≠ '\n' → c ≠ ' ' → c ≠ '#' →
      parse.isIdentStart c = false → c.isDigit = false → c ≠ '\'' → c ≠ '"' →
      parse.FeedChar s c = .ok { s with
        tokens := s.tokens ++ [parse.Tok.char p, parse.Tok.char c],
        state := .outState }) ∧
    (parse.feedEofStep s = .ok ({ s with
        tokens := s.tokens ++ [parse.Tok.char p, parse.Tok.newline]
          ++ List.replicate (s.current_indent_ws / 2) parse.Tok.dedent
          ++ [parse.Tok.eof],
        current_indent_ws := 0, next_indent_ws := 0, state := .eofState }, false)) := by
  refine ⟨?_, ?_, ?_, ?_, ?_, ?_, ?_, ?_, ?_, ?_⟩
  · simp [parse.FeedChar, hst, parse.feedMayBeCompare, hv, parse.compareTok]
  · intro c hc hid
    have h1 : c ≠ '\n' := by rintro rfl; exact absurd hid (by decide)
    have h2 : c ≠ ' ' := by rintro rfl; exact absurd hid (by decide)
    have h3 : c ≠ '#' := by rintro rfl; exact absurd hid (by decide)
    simp [parse.FeedChar, hst, parse.feedMayBeCompare, hv, hc, h1, h2, h3, hid]
  · intro c hc hid hdig
    have h1 : c ≠ '\n' := by rintro rfl; exact absurd hdig (by decide)
    have h2 : c ≠ ' ' := by rintro rfl; exact absurd hdig (by decide)
    have h3 : c ≠ '#' := by rintro rfl; exact absurd hdig (by decide)
    simp [parse.FeedChar, hst, parse.feedMayBeCompare, hv, hc, h1, h2, h3, hid, hdig]
  · simp [parse.FeedChar, hst, parse.feedMayBeCompare, hv]
  · simp [parse.FeedChar, hst, parse.feedMayBeCompare, hv]
  · simp [parse.FeedChar, hst, parse.feedMayBeCompare, hv]
  · simp [parse.FeedChar, hst, parse.feedMayBeCompare, hv, parse.isIdentStart]
  · simp [parse.FeedChar, hst, parse.feedMayBeCompare, hv, parse.isIdentStart]
  · intro c hc h1 h2 h3 hid hdig h4 h5
    simp [parse.FeedChar, hst, parse.feedMayBeCompare, hv, hc, h1, h2, h3, hid, hdig, h4, h5]
  · simp [parse.feedEofStep, hst, hv, parse.ProcessIndentation, parse.INDENT_SIZE_WS, hnext,
      exceptBind_ok, List.append_assoc]

/-- C7 witness: `<` then `=` fuses into `LessOrEq`; `<` then `a` emits
`Char '<'` and restarts an identifier. -/
theorem C7_witness :
    parse.FeedChar ⟨[], ['<'], 0, 0, .mayBeCompare⟩ '=' =
      .ok ⟨[parse.Tok.lessOrEq], ['<'], 0, 0, .outState⟩ ∧
    parse.FeedChar ⟨[], ['<'], 0, 0, .mayBeCompare⟩ 'a' =
      .ok ⟨[parse.Tok.char '<'], ['a'], 0, 0, .mayBeId⟩ := by
  have h := C7_compare_state ⟨[], ['<'], 0, 0, .mayBeCompare⟩ '<' rfl rfl (by decide) rfl
  constructor
  · have h1 := h.1
    simpa using h1
  · have h2 := h.2.1 'a' (by decide) (by decide)
    simpa using h2

/-- C8: inside either kind of string literal, an escaped `n` yields the
newline byte, an escaped `t` yields the tab byte, any other escaped byte is
kept verbatim; a newline inside the literal is a lexer error, and an input
that ends inside a string literal (escape state included) fails at
end-of-stream. -/
theorem C8_string_escapes (s : parse.LexState) :
    (∀ c, s.state = parse.StName.sqEscape →
      parse.FeedChar s c = .ok { s with
        value := s.value ++ [if c = 'n' then '\n' else if c = 't' then '\t' else c],
        state := .sqString }) ∧
    (∀ c, s.state = parse.StName.dqEscape →
      parse.FeedChar s c = .ok { s with
        value := s.value ++ [if c = 'n' then '\n' else if c = 't' then '\t' else c],
        state := .dqString }) ∧
    (s.state = parse.StName.sqString →
      parse.FeedChar s '\n' = .error "Ivalid lexeme") ∧
    (s.state = parse.StName.dqString →
      parse.FeedChar s '\n' = .error "Ivalid lexeme") ∧
    (∀ input st, parse.runChars input = .ok st →
      (st.state = parse.StName.sqString ∨ st.state = parse.StName.sqEscape ∨
       st.state = parse.StName.dqString ∨ st.state = parse.StName.dqEscape) →
      ∃ e, parse.runLexer input = .error e) := by
  refine ⟨?_, ?_, ?_, ?_, ?_⟩
  · intro c hst
    simp [parse.FeedChar, hst, parse.feedSQEscape, parse.escapeChar]
  · intro c hst
    simp [parse.FeedChar, hst, parse.feedDQEscape, parse.escapeChar]
  · intro hst
    simp [parse.FeedChar, hst, parse.feedSQString]
  · intro hst
    simp [parse.FeedChar, hst, parse.feedDQString]
  · intro input st hrun hmem
    unfold parse.runLexer
    rw [hrun, exceptBind_ok]
    rcases hmem with hx | hx | hx | hx <;>
      simp [parse.feedEofStep, hx, exceptBind_ok, exceptBind_error]

/-- C8 witness: `\n`, `\t` and `\q` inside a single-quoted literal produce
newline, tab and `q`; a newline inside the literal errors, and the
unterminated literal `'a` fails at end-of-stream. -/
theorem C8_witness :
    parse.FeedChar ⟨[], ['a'], 0, 0, .sqEscape⟩ 'n' =
      .ok ⟨[], ['a', '\n'], 0, 0, .sqString⟩ ∧
    parse.FeedChar ⟨[], ['a'], 0, 0, .sqEscape⟩ 't' =
      .ok ⟨[], ['a', '\t'], 0, 0, .sqString⟩ ∧
    parse.FeedChar ⟨[], ['a'], 0, 0, .sqEscape⟩ 'q' =
      .ok ⟨[], ['a', 'q'], 0, 0, .sqString⟩ ∧
    parse.FeedChar ⟨[], ['a'], 0, 0, .sqString⟩ '\n' = .error "Ivalid lexeme" ∧
    (∃ e, parse.runLexer ("'a".toList) = .error e) := by
  have h := C8_string_escapes ⟨[], ['a'], 0, 0, .sqEscape⟩
  have h2 := C8_string_escapes ⟨[], ['a'], 0, 0, .sqString⟩
  refine ⟨?_, ?_, ?_, h2.2.2.1 rfl, ?_⟩
  · have := h.1 'n' rfl
    simpa using this
  · have := h.1 't' rfl
    simpa using this
  · have := h.1 'q' rfl
    simpa using this
  · exact (C8_string_escapes ⟨[], ['a'], 0, 0, .sqString⟩).2.2.2.2 ("'a".toList)
      ⟨[], ['a'], 0, 0, .sqString⟩ (by rfl) (Or.inl rfl)

set_option maxHeartbeats 1000000 in
/-- A keyword-or-identifier token is never an `Indent`. -/
theorem pushKW_ne_indent (v : List Char) :
    ¬(parse.PushKeyWordOrId v = parse.Tok.indent) := by
  intro hcontra
  rw [parse.PushKeyWordOrId] at hcontra
  split_ifs at hcontra

set_option maxHeartbeats 1000000 in
/-- A keyword-or-identifier token is never a `Dedent`. -/
theorem pushKW_ne_dedent (v : List Char) :
    ¬(parse.PushKeyWordOrId v = parse.Tok.dedent) := by
  intro hcontra
  rw [parse.PushKeyWordOrId] at hcontra
  split_ifs at hcontra

/-- Appending indent-free tokens preserves the indent/dedent balance. -/
theorem count_balance_append {l L : List parse.Tok} {k : Nat}
    (hbal : l.count parse.Tok.indent = l.count parse.Tok.dedent + k)
    (hi : L.count parse.Tok.indent = 0) (hd : L.count parse.Tok.dedent = 0) :
    (l ++ L).count parse.Tok.indent = (l ++ L).count parse.Tok.dedent + k := by
  simp [List.count_append, hi, hd, hbal]

/-- The initial lexer state satisfies the run invariant. -/
theorem inv_init : parse.Inv parse.initState :=
  ⟨rfl, rfl, fun _ _ => rfl, by simp [parse.initState]⟩

/-- What `ProcessIndentation` does to the invariant fields: the new level is
the (even) pending count, the emitted run re-balances the token counts, the
pending count is zeroed, state and buffer are untouched. -/
theorem inv_pi {s t : parse.LexState}
    (h1 : s.current_indent_ws % 2 = 0)
    (h2 : s.tokens.count parse.Tok.indent =
          s.tokens.count parse.Tok.dedent + s.current_indent_ws / 2)
    (hpi : parse.ProcessIndentation s = .ok t) :
    t.current_indent_ws % 2 = 0 ∧
    t.tokens.count parse.Tok.indent =
      t.tokens.count parse.Tok.dedent + t.current_indent_ws / 2 ∧
    t.next_indent_ws = 0 ∧ t.state = s.state ∧ t.value = s.value := by
  unfold parse.ProcessIndentation parse.INDENT_SIZE_WS at hpi
  by_cases hc : s.next_indent_ws % 2 = 0
  · rw [if_neg (by omega)] at hpi
    simp only [Except.ok.injEq] at hpi
    subst hpi
    refine ⟨hc, ?_, rfl, rfl, rfl⟩
    have e1 : (parse.Tok.indent == parse.Tok.indent) = true := by decide
    have e2 : (parse.Tok.dedent == parse.Tok.indent) = false := by decide
    have e3 : (parse.Tok.indent == parse.Tok.dedent) = false := by decide
    have e4 : (parse.Tok.dedent == parse.Tok.dedent) = true := by decide
    simp [List.count_append, List.count_replicate, e1, e2, e3, e4]
    omega
  · rw [if_pos (by omega)] at hpi
    exact absurd hpi (by simp)

/-- A fused compare token is never an `Indent`. -/
theorem compareTok_ne_indent (c : Char) :
    ¬(parse.compareTok c = parse.Tok.indent) := by
  unfold parse.compareTok
  split_ifs <;> simp

/-- A fused compare token is never a `Dedent`. -/
theorem compareTok_ne_dedent (c : Char) :
    ¬(parse.compareTok c = parse.Tok.dedent) := by
  unfold parse.compareTok
  split_ifs <;> simp

set_option maxHeartbeats 4000000 in
/-- One real-byte step of the DFA preserves the run invariant. -/
theorem inv_step {s s' : parse.LexState} {c : Char}
    (hs : parse.Inv s) (h : parse.FeedChar s c = .ok s') : parse.Inv s' := by
  obtain ⟨h1, h2, h3, h4⟩ := hs
  unfold parse.FeedChar at h
  cases hst : s.state <;> rw [hst] at h
  case eofState => exact absurd hst h4
  case newLine =>
    simp only [parse.feedNewLine] at h
    split_ifs at h
    all_goals
      first
      | (simp only [Except.ok.injEq] at h
         subst h
         exact ⟨h1, h2, fun ha _ => absurd hst ha, by simp [hst]⟩)
      | (simp only [Except.ok.injEq] at h
         subst h
         exact ⟨h1, h2, fun _ hb => absurd rfl hb, by simp⟩)
      | (cases hpi : parse.ProcessIndentation s with
         | error e =>
           rw [hpi, exceptBind_error] at h
           exact absurd h (by simp)
         | ok t =>
           rw [hpi, exceptBind_ok] at h
           obtain ⟨p1, p2, p3, _, _⟩ := inv_pi h1 h2 hpi
           simp only [Except.ok.injEq] at h
           subst h
           refine ⟨p1, ?_, ?_, ?_⟩ <;>
             first
               | exact p2
               | (simp [List.count_append, List.count_cons, List.count_nil] <;> omega)
               | (intro _ _; exact p3)
               | simp)
  case mayBeId =>
    simp only [parse.feedMayBeId] at h
    split_ifs at h <;>
      (simp only [Except.ok.injEq] at h; subst h) <;>
      refine ⟨h1, ?_, ?_, ?_⟩
    all_goals first
      | exact h2
      | (simp [List.count_append, List.count_cons, List.count_nil,
          pushKW_ne_indent, pushKW_ne_dedent] <;> omega)
      | (intro ha _; exact absurd rfl ha)
      | (intro _ hb; exact absurd rfl hb)
      | (intro _ _; exact h3 (by simp [hst]) (by simp [hst]))
      | simp [hst]
      | simp
  case mayBeCompare =>
    simp only [parse.feedMayBeCompare] at h
    split_ifs at h <;>
      (simp only [Except.ok.injEq] at h; subst h) <;>
      refine ⟨h1, ?_, ?_, ?_⟩
    all_goals first
      | exact h2
      | (simp [List.count_append, List.count_cons, List.count_nil,
          compareTok_ne_indent, compareTok_ne_dedent] <;> omega)
      | (intro ha _; exact absurd rfl ha)
      | (intro _ hb; exact absurd rfl hb)
      | (intro _ _; exact h3 (by simp [hst]) (by simp [hst]))
      | simp [hst]
      | simp
  case numberState =>
    simp only [parse.feedNumberState] at h
    split_ifs at h <;>
      (simp only [Except.ok.injEq] at h; subst h) <;>
      refine ⟨h1, ?_, ?_, ?_⟩
    all_goals first
      | exact h2
      | (simp [List.count_append, List.count_cons, List.count_nil] <;> omega)
      | (intro ha _; exact absurd rfl ha)
      | (intro _ hb; exact absurd rfl hb)
      | (intro _ _; exact h3 (by simp [hst]) (by simp [hst]))
      | simp [hst]
      | simp
  case sqString =>
    simp only [parse.feedSQString] at h
    split_ifs at h <;>
      (simp only [Except.ok.injEq] at h; subst h) <;>
      refine ⟨h1, ?_, ?_, ?_⟩
    all_goals first
      | exact h2
      | (simp [List.count_append, List.count_cons, List.count_nil] <;> omega)
      | (intro _ _; exact h3 (by simp [hst]) (by simp [hst]))
      | simp [hst]
      | simp
  case sqEscape =>
    simp only [parse.feedSQEscape, Except.ok.injEq] at h
    subst h
    exact ⟨h1, h2, fun _ _ => h3 (by simp [hst]) (by simp [hst]), by simp⟩
  case dqString =>
    simp only [parse.feedDQString] at h
    split_ifs at h <;>
      (simp only [Except.ok.injEq] at h; subst h) <;>
      refine ⟨h1, ?_, ?_, ?_⟩
    all_goals first
      | exact h2
      | (simp [List.count_append, List.count_cons, List.count_nil] <;> omega)
      | (intro _ _; exact h3 (by simp [hst]) (by simp [hst]))
      | simp [hst]
      | simp
  case dqEscape =>
    simp only [parse.feedDQEscape, Except.ok.injEq] at h
    subst h
    exact ⟨h1, h2, fun _ _ => h3 (by simp [hst]) (by simp [hst]), by simp⟩
  case trailingComment =>
    simp only [parse.feedTrailingComment] at h
    split_ifs at h <;>
      (simp only [Except.ok.injEq] at h; subst h) <;>
      refine ⟨h1, ?_, ?_, ?_⟩
    all_goals first
      | exact h2
      | (simp [List.count_append, List.count_cons, List.count_nil] <;> omega)
      | (intro ha _; exact absurd rfl ha)
      | (intro _ _; exact h3 (by simp [hst]) (by simp [hst]))
      | simp [hst]
      | simp
  case lineComment =>
    simp only [parse.feedLineComment] at h
    split_ifs at h <;>
      (simp only [Except.ok.injEq] at h; subst h) <;>
      refine ⟨h1, ?_, ?_, ?_⟩
    all_goals first
      | exact h2
      | (intro ha _; exact absurd rfl ha)
      | (intro _ hb; exact absurd rfl hb)
      | (intro _ hb; exact absurd hst hb)
      | simp [hst]
      | simp
  case outState =>
    simp only [parse.feedOutState] at h
    split_ifs at h <;>
      (simp only [Except.ok.injEq] at h; subst h) <;>
      refine ⟨h1, ?_, ?_, ?_⟩
    all_goals first
      | exact h2
      | (simp [List.count_append, List.count_cons, List.count_nil] <;> omega)
      | (intro ha _; exact absurd rfl ha)
      | (intro _ hb; exact absurd rfl hb)
      | (intro _ _; exact h3 (by simp [hst]) (by simp [hst]))
      | simp [hst]
      | simp

/-- Feeding any list of real bytes from an invariant state stays invariant. -/
theorem inv_fold {input : List Char} {s0 s : parse.LexState}
    (h0 : parse.Inv s0) (h : List.foldlM parse.FeedChar s0 input = .ok s) :
    parse.Inv s := by
  induction input generalizing s0 with
  | nil =>
    rw [List.foldlM_nil] at h
    exact (Except.ok.inj h) ▸ h0
  | cons c t ih =>
    rw [List.foldlM_cons] at h
    cases hfc : parse.FeedChar s0 c with
    | error e =>
      rw [hfc, exceptBind_error] at h
      exact absurd h (by simp)
    | ok s1 =>
      rw [hfc, exceptBind_ok] at h
      exact ih (inv_step h0 hfc) h

/-- Every state reached by `runChars` satisfies the invariant. -/
theorem inv_runChars {input : List Char} {s : parse.LexState}
    (h : parse.runChars input = .ok s) : parse.Inv s :=
  inv_fold inv_init h

/-- The end-of-stream tail contributed before the dedent run holds no indent
or dedent tokens. -/
theorem pending_count (s : parse.LexState) :
    (parse.pendingEofTokens s).count parse.Tok.indent = 0 ∧
    (parse.pendingEofTokens s).count parse.Tok.dedent = 0 := by
  unfold parse.pendingEofTokens
  cases hst : s.state <;>
    simp [List.count_cons, List.count_nil, pushKW_ne_indent, pushKW_ne_dedent]

/-- C2 counterexample: the input consisting of two spaces, `#`, and a comment
byte is accepted, yet its complete token stream is `[Indent, Eof]`: no
Dedent balances the Indent, because the `LineComment` end-of-stream path runs
`ProcessIndentation` with the comment line's leading-space count instead of
zero. -/
theorem C2_counterexample :
    parse.runLexer ("  #c".toList) = .ok [parse.Tok.indent, parse.Tok.eof] ∧
    List.count parse.Tok.indent [parse.Tok.indent, parse.Tok.eof] ≠
      List.count parse.Tok.dedent [parse.Tok.indent, parse.Tok.eof] := by
  exact ⟨by rfl, by decide⟩

set_option maxHeartbeats 4000000 in
/-- C2 (amended): for every accepted input that does not end inside a line
comment with a nonzero pending leading-space count, the complete token
stream is the tokens of the byte run, then the pending lexeme and closing
`Newline` of the current line (present exactly when tokens were emitted on
it), then one `Dedent` per two committed indent spaces, then `Eof`; hence it
ends with `Eof` and holds equally many `Indent` and `Dedent` tokens. -/
theorem C2_amended (input : List Char) (s : parse.LexState) (ts : List parse.Tok)
    (hrun : parse.runChars input = .ok s)
    (hlc : s.state = parse.StName.lineComment → s.next_indent_ws = 0)
    (hts : parse.runLexer input = .ok ts) :
    ts = s.tokens ++ parse.pendingEofTokens s
        ++ List.replicate (s.current_indent_ws / 2) parse.Tok.dedent
        ++ [parse.Tok.eof] ∧
    ts.getLast? = some parse.Tok.eof ∧
    ts.count parse.Tok.indent = ts.count parse.Tok.dedent := by
  obtain ⟨h1, h2, h3, h4⟩ := inv_runChars hrun
  unfold parse.runLexer at hts
  rw [hrun, exceptBind_ok] at hts
  have main : ts = s.tokens ++ parse.pendingEofTokens s
      ++ List.replicate (s.current_indent_ws / 2) parse.Tok.dedent
      ++ [parse.Tok.eof] := by
    cases hst : s.state
    case eofState => exact absurd hst h4
    case sqString =>
      simp [parse.feedEofStep, hst, exceptBind_error] at hts
    case dqString =>
      simp [parse.feedEofStep, hst, exceptBind_error] at hts
    case sqEscape =>
      simp [parse.feedEofStep, hst, exceptBind_ok, exceptBind_error] at hts
    case dqEscape =>
      simp [parse.feedEofStep, hst, exceptBind_ok, exceptBind_error] at hts
    case newLine =>
      simp [parse.feedEofStep, hst, parse.ProcessIndentation, parse.INDENT_SIZE_WS,
        exceptBind_ok, parse.pendingEofTokens, List.append_assoc] at hts ⊢
      exact hts.symm
    case lineComment =>
      have hnext0 : s.next_indent_ws = 0 := hlc hst
      simp [parse.feedEofStep, hst, parse.ProcessIndentation, parse.INDENT_SIZE_WS,
        hnext0, exceptBind_ok, parse.pendingEofTokens, List.append_assoc] at hts ⊢
      exact hts.symm
    case mayBeId =>
      have hnext0 : s.next_indent_ws = 0 := h3 (by simp [hst]) (by simp [hst])
      simp [parse.feedEofStep, hst, parse.ProcessIndentation, parse.INDENT_SIZE_WS,
        hnext0, exceptBind_ok, parse.pendingEofTokens, List.append_assoc] at hts ⊢
      exact hts.symm
    case mayBeCompare =>
      have hnext0 : s.next_indent_ws = 0 := h3 (by simp [hst]) (by simp [hst])
      simp [parse.feedEofStep, hst, parse.ProcessIndentation, parse.INDENT_SIZE_WS,
        hnext0, exceptBind_ok, parse.pendingEofTokens, List.append_assoc] at hts ⊢
      exact hts.symm
    case numberState =>
      have hnext0 : s.next_indent_ws = 0 := h3 (by simp [hst]) (by simp [hst])
      simp [parse.feedEofStep, hst, parse.ProcessIndentation, parse.INDENT_SIZE_WS,
        hnext0, exceptBind_ok, parse.pendingEofTokens, List.append_assoc] at hts ⊢
      exact hts.symm
    case trailingComment =>
      have hnext0 : s.next_indent_ws = 0 := h3 (by simp [hst]) (by simp [hst])
      simp [parse.feedEofStep, hst, parse.ProcessIndentation, parse.INDENT_SIZE_WS,
        hnext0, exceptBind_ok, parse.pendingEofTokens, List.append_assoc] at hts ⊢
      exact hts.symm
    case outState =>
      have hnext0 : s.next_indent_ws = 0 := h3 (by simp [hst]) (by simp [hst])
      simp [parse.feedEofStep, hst, parse.ProcessIndentation, parse.INDENT_SIZE_WS,
        hnext0, exceptBind_ok, parse.pendingEofTokens, List.append_assoc] at hts ⊢
      exact hts.symm
  refine ⟨main, ?_, ?_⟩
  · rw [main]
    rw [show s.tokens ++ parse.pendingEofTokens s
        ++ List.replicate (s.current_indent_ws / 2) parse.Tok.dedent
        ++ [parse.Tok.eof] =
      (s.tokens ++ parse.pendingEofTokens s
        ++ List.replicate (s.current_indent_ws / 2) parse.Tok.dedent)
        ++ [parse.Tok.eof] from by simp [List.append_assoc]]
    exact List.getLast?_concat _
  · obtain ⟨hpi', hpd⟩ := pending_count s
    rw [main]
    have e2 : (parse.Tok.dedent == parse.Tok.indent) = false := by decide
    have e4 : (parse.Tok.dedent == parse.Tok.dedent) = true := by decide
    simp [List.count_append, List.count_replicate, List.count_cons, List.count_nil,
      hpi', hpd, e2, e4]
    omega

/-- C2 witness: for the input `x`, the stream is `[Id x, Newline, Eof]`,
which ends with `Eof` and is `Indent`/`Dedent` balanced. -/
theorem C2_witness :
    parse.runLexer ("x".toList) =
      .ok [parse.Tok.id "x", parse.Tok.newline, parse.Tok.eof] ∧
    [parse.Tok.id "x", parse.Tok.newline, parse.Tok.eof].getLast? =
      some parse.Tok.eof ∧
    List.count parse.Tok.indent [parse.Tok.id "x", parse.Tok.newline, parse.Tok.eof] =
      List.count parse.Tok.dedent [parse.Tok.id "x", parse.Tok.newline, parse.Tok.eof] := by
  have h := C2_amended ("x".toList) ⟨[], ['x'], 0, 0, .mayBeId⟩
      [parse.Tok.id "x", parse.Tok.newline, parse.Tok.eof] (by rfl)
      (by intro hx; exact absurd hx (by decide)) (by rfl)
  exact ⟨by rfl, h.2.1, h.2.2⟩
